import Mathlib

/-!
Shallow embedding of the calendar synchronization core
(https://github.com/arjungandhi/calendar, `calendar.go`) and proofs about it.

The embedding covers the components the verified properties are about:

* the filename sanitizer (`sanitizeFilename`),
* the source registry (`AddSource`),
* the sync engine (`syncSource`, `SyncAll`), with the HTTP fetch and the
  external iCalendar decoder abstracted as an input describing their outcome,
* the query engine (`ListEvents`), with `time.Time` modelled at the
  granularity it is used there: a totally ordered instant (`Int`) whose
  distinguished value `0` plays the role of Go's zero `time.Time`
  (`IsZero`/`Before`/`After` are the only operations `ListEvents` uses),
* the time resolver (`parseEventTime`), with `time.Time` modelled as the
  wall-clock fields plus a location name, which is how `time.Parse` /
  `time.ParseInLocation` construct it.
-/

namespace Calendar

/-! ### Filename sanitization (`sanitizeFilename` in calendar.go) -/

/-- The characters the `strings.NewReplacer` in `sanitizeFilename` replaces
with a single underscore. -/
def underscoreChars : List Char :=
  ['/', '\\', ':', '*', '?', '"', '<', '>', '|']

/-- Per-character action of the replacer in `sanitizeFilename`: each of the
path-hostile characters becomes an underscore, the at sign becomes the string
underscore a t underscore, anything else is kept. All replacer patterns are
single (one-byte) characters, so the replacer acts character by character. -/
def replaceChar (c : Char) : List Char :=
  if c = '@' then ['_', 'a', 't', '_']
  else if c ∈ underscoreChars then ['_']
  else [c]

/-- Character-list form of `sanitizeFilename`. -/
def sanitizeChars (l : List Char) : List Char :=
  (l.map replaceChar).flatten

/-- `sanitizeFilename` from calendar.go. -/
def sanitizeFilename (s : String) : String :=
  String.mk (sanitizeChars s.data)

/-! ### Source registry (`Source`, `AddSource` in calendar.go) -/

/-- `Source` from calendar.go. -/
structure Source where
  name : String
  url : String
deriving DecidableEq, Repr

/-- The error kinds of the registry and sync operations (§7 of the spec);
in the code these are distinct `fmt.Errorf` values. -/
inductive CalError where
  | duplicateName
  | notFound
  | noSources
  | fetchError
  | parseError
deriving DecidableEq, Repr

/-- `AddSource` from calendar.go, as a pure function from the loaded registry
to the registry that gets saved: it errors when some existing source has
exactly the given name (Go string equality is case-sensitive), otherwise it
appends the new source at the end. -/
def AddSource (sources : List Source) (name url : String) :
    Except CalError (List Source) :=
  if sources.any (fun s => s.name == name) then .error .duplicateName
  else .ok (sources ++ [⟨name, url⟩])

/-- The persisted registry after an `AddSource` call: `SaveSources` runs only
on the success path, so on error the file keeps the previous contents. -/
def registryAfterAdd (sources : List Source) (name url : String) :
    List Source :=
  match AddSource sources name url with
  | .ok saved => saved
  | .error _ => sources

/-! ### Sync engine (`syncSource`, `SyncAll` in calendar.go) -/

/-- A decoded calendar component as `syncSource` consumes it: the only
property the sync engine reads is the UID. An empty string models a component
whose UID is missing or unreadable (`Props.Text` error or empty value). -/
structure ICalEvent where
  uid : String
deriving DecidableEq, Repr

/-- A decoded feed: what the external iCalendar decoder returns on success. -/
structure Feed where
  events : List ICalEvent
deriving DecidableEq, Repr

/-- Outcome of the HTTP GET plus the external decoder for one source:
either the transport fails, or a response with some status code arrives whose
body either decodes to a `Feed` (`some`) or fails to decode (`none`). -/
inductive FetchResult where
  | transportFailure
  | response (status : Nat) (body : Option Feed)
deriving DecidableEq, Repr

/-- One stored event record: a file in the source's directory, named after
the sanitized UID, whose content is the single-event document for the event
with that UID. -/
structure Record where
  filename : String
  uid : String
deriving DecidableEq, Repr

/-- A source's event store: the set of files in its directory. -/
abbrev Store := List Record

/-- `os.WriteFile`: creates the file or overwrites an existing file with the
same name. -/
def writeRecord (st : Store) (r : Record) : Store :=
  r :: st.filter (fun q => q.filename ≠ r.filename)

/-- The write loop of `syncSource`: events whose UID is missing or empty are
skipped; every other event is written under `sanitizeFilename uid ++ ".ics"`. -/
def writeEvents (st : Store) (evs : List ICalEvent) : Store :=
  evs.foldl
    (fun s e =>
      if e.uid = "" then s
      else writeRecord s ⟨sanitizeFilename e.uid ++ ".ics", e.uid⟩)
    st

/-- `syncSource` from calendar.go, over one source's store. Mirrors the
control flow: transport failure returns the fetch error; a status other
than `http.StatusOK` (200) returns the fetch error; an undecodable body
returns the parse error; in each of these cases the function returns before
touching the directory, so the store is unchanged. On success the directory
is first cleared of all entries and the freshly decoded events are written. -/
def syncSource (r : FetchResult) (store : Store) :
    Option CalError × Store :=
  match r with
  | .transportFailure => (some .fetchError, store)
  | .response status body =>
    if status ≠ 200 then (some .fetchError, store)
    else
      match body with
      | none => (some .parseError, store)
      | some feed => (none, writeEvents [] feed.events)

/-- `SyncAll` from calendar.go: errors when the loaded source list is empty;
otherwise it visits every source in registry order, records the per-source
outcome, and continues past failures (`continue` in the loop body). The
network and each source's prior store are supplied as functions. -/
def SyncAll (sources : List Source) (fetch : Source → FetchResult)
    (stores : Source → Store) :
    Except CalError (List (Source × Option CalError)) :=
  if sources.isEmpty then .error .noSources
  else .ok (sources.map (fun s => (s, (syncSource (fetch s) (stores s)).1)))

/-! ### Query engine (`ListEvents` in calendar.go) -/

/-- The instants the query engine compares: `ListEvents` only uses the total
order on `time.Time` (`Before`/`After`) and the `IsZero` test, so instants
are modelled as integers with `0` as the zero `time.Time`. -/
abbrev Instant := Int

/-- `Event` from calendar.go, with the temporal fields at the query engine's
granularity (`endTime` stands for the Go field `End`, a Lean keyword). -/
structure Event where
  uid : String
  summary : String
  calendar : String
  start : Instant
  endTime : Instant
  allDay : Bool
deriving DecidableEq, Repr

/-- The range filter of `ListEvents`: an event is dropped when `from` is
non-zero and the start is before it, or `to` is non-zero and the start is
after it. -/
def keepEvent (lo hi : Instant) (e : Event) : Bool :=
  if lo ≠ 0 ∧ e.start < lo then false
  else if hi ≠ 0 ∧ hi < e.start then false
  else true

/-- The comparator `sort.Slice` is given in `ListEvents` sorts by; the Go
library guarantees the result is ordered by the comparator, which is all the
code relies on, so the model uses a concrete correct sort. -/
def startLE (a b : Event) : Bool := decide (a.start ≤ b.start)

/-- `ListEvents` from calendar.go, over the aggregated list of successfully
decoded stored events: filter to the range, then sort ascending by start. -/
def ListEvents (events : List Event) (lo hi : Instant) : List Event :=
  (events.filter (keepEvent lo hi)).mergeSort startLE

/-! ### Time resolver (`parseEventTime` in calendar.go) -/

/-- `time.Time` at the time resolver's granularity: the wall-clock fields
together with the location name, exactly what `time.Parse` and
`time.ParseInLocation` construct. The name "Local" stands for `time.Local`. -/
structure GoTime where
  year : Nat
  month : Nat
  day : Nat
  hour : Nat
  minute : Nat
  second : Nat
  loc : String
deriving DecidableEq, Repr

/-- The zero `time.Time`. -/
def zeroGoTime : GoTime := ⟨1, 1, 1, 0, 0, 0, "UTC"⟩

/-- A raw calendar property as `parseEventTime` consumes it: the value string
and the parameter map (Go `map[string][]string`, modelled as an association
list). -/
structure PropData where
  value : String
  params : List (String × List String)
deriving DecidableEq, Repr

/-- The VALUE=DATE test of `parseEventTime`: the loop sets the all-day flag
when any entry of the VALUE parameter equals "DATE". -/
def hasValueDate (p : PropData) : Bool :=
  match p.params.lookup "VALUE" with
  | some vs => vs.contains "DATE"
  | none => false

/-- Modelled from the host timezone database (external to the repository):
`time.LoadLocation` succeeds exactly on the identifiers the database knows;
a representative fragment of the database is listed. -/
def knownLocations : List String :=
  ["UTC", "America/New_York", "Europe/London", "Asia/Tokyo"]

/-- `time.LoadLocation`, over the modelled database. -/
def loadLocation (tzid : String) : Option String :=
  if knownLocations.contains tzid then some tzid else none

/-- The TZID resolution of `parseEventTime`: start from `time.Local`, and
when a TZID parameter with at least one value is present and its first value
resolves, use that location; an unresolvable identifier keeps `time.Local`. -/
def resolveLoc (p : PropData) : String :=
  match p.params.lookup "TZID" with
  | some (tz :: _) =>
    match loadLocation tz with
    | some l => l
    | none => "Local"
  | _ => "Local"

/-- Numeric value of a decimal digit character, if it is one. -/
def digitVal (c : Char) : Option Nat :=
  if c.isDigit then some (c.toNat - 48) else none

/-- Two decimal digit characters as a number. -/
def twoDigits (a b : Char) : Option Nat :=
  match digitVal a, digitVal b with
  | some x, some y => some (10 * x + y)
  | _, _ => none

/-- Four decimal digit characters as a number. -/
def fourDigits (a b c d : Char) : Option Nat :=
  match twoDigits a b, twoDigits c d with
  | some x, some y => some (100 * x + y)
  | _, _ => none

/-- Gregorian leap-year rule, as Go's `time` package applies it. -/
def isLeapYear (y : Nat) : Bool :=
  (y % 4 == 0 && y % 100 != 0) || y % 400 == 0

/-- Number of days in a month, as Go's `time` package validates it. -/
def daysInMonth (y m : Nat) : Nat :=
  if m = 2 then (if isLeapYear y then 29 else 28)
  else if m ∈ [4, 6, 9, 11] then 30
  else 31

/-- Validity check `time.Parse` applies to a parsed calendar date. -/
def validDate (y m d : Nat) : Bool :=
  1 ≤ m && m ≤ 12 && 1 ≤ d && d ≤ daysInMonth y m

/-- Validity check `time.Parse` applies to a parsed time of day. -/
def validClock (h mi s : Nat) : Bool :=
  h ≤ 23 && mi ≤ 59 && s ≤ 59

/-- `time.Parse("20060102", value)`: exactly eight digits forming a valid
calendar date; the layout carries no zone, so the result is in UTC. -/
def parseDate8 (value : String) : Option (Nat × Nat × Nat) :=
  match value.data with
  | [y1, y2, y3, y4, m1, m2, d1, d2] =>
    match fourDigits y1 y2 y3 y4, twoDigits m1 m2, twoDigits d1 d2 with
    | some y, some m, some d =>
      if validDate y m d then some (y, m, d) else none
    | _, _, _ => none
  | _ => none

/-- `time.Parse("20060102", value)` as a `GoTime`. -/
def goParseDate (value : String) : Option GoTime :=
  match parseDate8 value with
  | some (y, m, d) => some ⟨y, m, d, 0, 0, 0, "UTC"⟩
  | none => none

/-- Assemble a parsed date-time from its digit characters, in the given
location. -/
def mkDateTime (y1 y2 y3 y4 m1 m2 d1 d2 h1 h2 mi1 mi2 s1 s2 : Char)
    (loc : String) : Option GoTime :=
  match fourDigits y1 y2 y3 y4, twoDigits m1 m2, twoDigits d1 d2,
      twoDigits h1 h2, twoDigits mi1 mi2, twoDigits s1 s2 with
  | some y, some m, some d, some h, some mi, some s =>
    if validDate y m d && validClock h mi s then
      some ⟨y, m, d, h, mi, s, loc⟩
    else none
  | _, _, _, _, _, _ => none

/-- Modelled from the external iCalendar library (outside this repository):
`Prop.DateTime(loc)` on a DATE-TIME valued property parses the form
`YYYYMMDDTHHMMSS` in the supplied location and the trailing-Z form in UTC;
any other value fails. -/
def propDateTime (value : String) (loc : String) : Option GoTime :=
  match value.data with
  | [y1, y2, y3, y4, m1, m2, d1, d2, 'T', h1, h2, mi1, mi2, s1, s2] =>
    mkDateTime y1 y2 y3 y4 m1 m2 d1 d2 h1 h2 mi1 mi2 s1 s2 loc
  | [y1, y2, y3, y4, m1, m2, d1, d2, 'T', h1, h2, mi1, mi2, s1, s2, 'Z'] =>
    mkDateTime y1 y2 y3 y4 m1 m2 d1 d2 h1 h2 mi1 mi2 s1 s2 "UTC"
  | _ => none

/-- `parseEventTime` from calendar.go. `none` models a missing property
(`Props.Get` returning nil). With VALUE=DATE declared the value is parsed as
a bare date and the event is all-day. Otherwise the primary date-time parse
runs in the resolved location; if it fails, the bare-date fallback runs and
a success there is also reported as all-day; if both fail, the result is the
zero time and not all-day. -/
def parseEventTime (p : Option PropData) : GoTime × Bool :=
  match p with
  | none => (zeroGoTime, false)
  | some p =>
    if hasValueDate p then
      match goParseDate p.value with
      | some t => (t, true)
      | none => (zeroGoTime, false)
    else
      match propDateTime p.value (resolveLoc p) with
      | some t => (t, false)
      | none =>
        match goParseDate p.value with
        | some t => (t, true)
        | none => (zeroGoTime, false)

/-! ### Helper lemmas -/

theorem keepEvent_eq_true (lo hi : Instant) (e : Event) :
    keepEvent lo hi e = true ↔
      ¬ (lo ≠ 0 ∧ e.start < lo) ∧ ¬ (hi ≠ 0 ∧ hi < e.start) := by
  unfold keepEvent
  split
  · simp_all
  · split <;> simp_all

theorem mem_ListEvents (events : List Event) (lo hi : Instant) (e : Event) :
    e ∈ ListEvents events lo hi ↔
      e ∈ events ∧ keepEvent lo hi e = true := by
  unfold ListEvents
  rw [List.mem_mergeSort, List.mem_filter]

/-- C1: for every list of decoded stored events and every pair of bounds,
`ListEvents` returns no event starting strictly before a non-zero lower
bound and none starting strictly after a non-zero upper bound; with both
bounds zero, every decoded stored event is returned. -/
theorem ListEvents_range_filter (events : List Event) (lo hi : Instant) :
    (∀ e ∈ ListEvents events lo hi,
        (lo ≠ 0 → ¬ e.start < lo) ∧ (hi ≠ 0 → ¬ hi < e.start))
    ∧ (lo = 0 → hi = 0 → ∀ e ∈ events, e ∈ ListEvents events lo hi) := by
  constructor
  · intro e he
    have hk := ((mem_ListEvents events lo hi e).mp he).2
    rw [keepEvent_eq_true] at hk
    exact ⟨fun h0 hlt => hk.1 ⟨h0, hlt⟩, fun h0 hlt => hk.2 ⟨h0, hlt⟩⟩
  · intro hlo hhi e he
    refine (mem_ListEvents events lo hi e).mpr ⟨he, ?_⟩
    rw [keepEvent_eq_true]
    simp [hlo, hhi]

/-- C8: the sequence `ListEvents` returns is sorted non-decreasing by start. -/
theorem ListEvents_sorted_by_start (events : List Event) (lo hi : Instant) :
    (ListEvents events lo hi).Pairwise (fun a b => a.start ≤ b.start) := by
  unfold ListEvents
  refine List.Pairwise.imp (fun h => of_decide_eq_true h)
    (List.sorted_mergeSort ?_ ?_ (events.filter (keepEvent lo hi)))
  · intro a b c hab hbc
    simp only [startLE, decide_eq_true_eq] at *
    exact le_trans hab hbc
  · intro a b
    simp only [startLE, Bool.or_eq_true, decide_eq_true_eq]
    exact le_total a.start b.start

theorem mem_writeEvents (evs : List ICalEvent) (st : Store) (r : Record)
    (hr : r ∈ writeEvents st evs) :
    r ∈ st ∨ r.uid ∈ evs.map ICalEvent.uid := by
  induction evs generalizing st with
  | nil => exact .inl hr
  | cons e evs ih =>
    have hr' : r ∈ writeEvents
        (if e.uid = "" then st
         else writeRecord st ⟨sanitizeFilename e.uid ++ ".ics", e.uid⟩) evs := hr
    rcases ih _ hr' with h | h
    · by_cases he : e.uid = ""
      · rw [if_pos he] at h
        exact .inl h
      · rw [if_neg he, writeRecord, List.mem_cons] at h
        rcases h with h | h
        · right
          rw [h]
          simp
        · exact .inl (List.mem_of_mem_filter h)
    · right
      rw [List.map_cons]
      exact List.mem_cons_of_mem _ h

/-- C2: full refresh — when a sync with a feed containing uid u succeeds and
a later sync with a feed omitting u succeeds, the store after the second
sync holds no record whose event has uid u: the prior records are cleared
and only the second feed's events are written. -/
theorem syncSource_full_refresh (feed1 feed2 : Feed)
    (store0 store1 store2 : Store) (u : String)
    (h1 : syncSource (.response 200 (some feed1)) store0 = (none, store1))
    (hu : u ∈ feed1.events.map ICalEvent.uid)
    (h2 : syncSource (.response 200 (some feed2)) store1 = (none, store2))
    (habsent : ∀ e ∈ feed2.events, e.uid ≠ u) :
    ∀ r ∈ store2, r.uid ≠ u := by
  intro r hr
  have hs : writeEvents [] feed2.events = store2 := by
    simpa [syncSource] using h2
  rw [← hs] at hr
  rcases mem_writeEvents feed2.events [] r hr with h | h
  · cases h
  · obtain ⟨e, he, heq⟩ := List.mem_map.mp h
    intro hc
    exact habsent e he (by rw [heq, hc])

theorem syncSource_full_refresh_witness : (Record.mk "v.ics" "v").uid ≠ "u" :=
  syncSource_full_refresh ⟨[⟨"u"⟩]⟩ ⟨[⟨"v"⟩]⟩ [] [⟨"u.ics", "u"⟩]
    [⟨"v.ics", "v"⟩] "u" (by decide) (by decide) (by decide) (by decide)
    ⟨"v.ics", "v"⟩ (by decide)

/-- C9: when `syncSource` fails with the fetch error or the parse error, the
source's store is exactly as it was before the call — the clearing of prior
records happens only after both the fetch and the decode have succeeded. -/
theorem syncSource_error_preserves_store (r : FetchResult) (store : Store)
    (e : CalError) (h : (syncSource r store).1 = some e) :
    (syncSource r store).2 = store := by
  cases r with
  | transportFailure => rfl
  | response status body =>
    by_cases hs : status = 200
    · subst hs
      cases body with
      | none => rfl
      | some feed => simp [syncSource] at h
    · simp [syncSource, hs]

theorem syncSource_error_preserves_store_witness :
    (syncSource .transportFailure [⟨"f.ics", "u"⟩]).2 = [⟨"f.ics", "u"⟩] :=
  syncSource_error_preserves_store .transportFailure [⟨"f.ics", "u"⟩]
    .fetchError rfl

/-- C3 counterexample: status 204 is a 2xx status with a decodable body, yet
`syncSource` fails with the fetch error — the code accepts only status 200,
not every 2xx status. -/
theorem syncSource_rejects_204 :
    (200 ≤ 204 ∧ 204 < 300)
    ∧ syncSource (.response 204 (some ⟨[]⟩)) [] = (some .fetchError, []) :=
  ⟨by decide, rfl⟩

/-- C3 amended: `syncSource` proceeds past the fetch exactly on status 200;
it fails with the fetch error exactly when the transport fails or the status
is anything other than 200. -/
theorem syncSource_fetch_error_iff (r : FetchResult) (store : Store) :
    (syncSource r store).1 = some .fetchError ↔
      r = .transportFailure
      ∨ ∃ status body, r = .response status body ∧ status ≠ 200 := by
  cases r with
  | transportFailure => simp [syncSource]
  | response status body =>
    by_cases hs : status = 200
    · subst hs
      cases body <;> simp [syncSource]
    · simp [syncSource, hs]

/-- C6 counterexample: a persisted registry (the sources file is an
arbitrary JSON array, so duplicate names are a representable state) that
already holds two sources named "work" makes `AddSource` fail with the
duplicate-name error, and the registry that remains persisted still holds
two entries with that name, not exactly one. -/
theorem AddSource_duplicate_pair_retained :
    AddSource [⟨"work", "u1"⟩, ⟨"work", "u2"⟩] "work" "u3"
        = .error .duplicateName
    ∧ (registryAfterAdd [⟨"work", "u1"⟩, ⟨"work", "u2"⟩] "work" "u3").countP
        (fun s => s.name == "work") = 2 := by
  constructor
  · rfl
  · rfl

/-- C6 amended: `AddSource` fails with the duplicate-name error exactly when
a source with exactly that name (case-sensitive) is already present; on
failure nothing is saved, so the persisted registry is unchanged — in
particular it retains however many entries with that name it had, exactly
one in the add-twice scenario; with a new name the source is appended at
the end and saved. -/
theorem AddSource_duplicate_behavior (sources : List Source)
    (name url : String) :
    (AddSource sources name url = .error .duplicateName ↔
      ∃ s ∈ sources, s.name = name)
    ∧ ((∃ s ∈ sources, s.name = name) →
        registryAfterAdd sources name url = sources)
    ∧ ((∀ s ∈ sources, s.name ≠ name) →
        registryAfterAdd sources name url = sources ++ [⟨name, url⟩]) := by
  by_cases h : sources.any (fun s => s.name == name)
  · have hex : ∃ s ∈ sources, s.name = name := by
      simpa using List.any_eq_true.mp h
    refine ⟨⟨fun _ => hex, fun _ => ?_⟩, fun _ => ?_, fun hall => ?_⟩
    · rw [AddSource, if_pos h]
    · rw [registryAfterAdd, AddSource, if_pos h]
    · obtain ⟨s, hs, he⟩ := hex
      exact absurd he (hall s hs)
  · have hnone : ∀ s ∈ sources, s.name ≠ name := by
      intro s hs
      simpa using
        fun he => h (List.any_eq_true.mpr ⟨s, hs, by simp [he]⟩)
    refine ⟨⟨fun he => ?_, fun hex => ?_⟩, fun hex => ?_, fun _ => ?_⟩
    · rw [AddSource, if_neg h] at he
      cases he
    · obtain ⟨s, hs, he⟩ := hex
      exact absurd he (hnone s hs)
    · obtain ⟨s, hs, he⟩ := hex
      exact absurd he (hnone s hs)
    · rw [registryAfterAdd, AddSource, if_neg h]

/-- C7: `SyncAll` fails with the no-sources error exactly when the
configured source list is empty; on a non-empty list it produces an outcome
for every configured source in registry order, whatever the per-source
outcomes are — a failing source does not abort the batch. -/
theorem SyncAll_no_sources_iff_and_visits_all (sources : List Source)
    (fetch : Source → FetchResult) (stores : Source → Store) :
    (SyncAll sources fetch stores = .error .noSources ↔ sources = [])
    ∧ (∀ res, SyncAll sources fetch stores = .ok res →
        res.map Prod.fst = sources) := by
  by_cases h : sources.isEmpty
  · rw [List.isEmpty_iff] at h
    subst h
    exact ⟨by simp [SyncAll], fun res hres => by simp [SyncAll] at hres⟩
  · constructor
    · rw [SyncAll, if_neg h]
      simp only [List.isEmpty_iff] at h
      simp [h]
    · intro res hres
      rw [SyncAll, if_neg h] at hres
      cases hres
      rw [List.map_map]
      exact List.map_id sources

/-- The full character set `sanitizeFilename` replaces. -/
def hostileChars : List Char := '@' :: underscoreChars

theorem replaceChar_eq_self (c : Char) (h : c ∉ hostileChars) :
    replaceChar c = [c] := by
  rw [hostileChars, List.mem_cons, not_or] at h
  rw [replaceChar, if_neg h.1, if_neg h.2]

theorem sanitizeChars_id (l : List Char) (h : ∀ c ∈ l, c ∉ hostileChars) :
    sanitizeChars l = l := by
  induction l with
  | nil => rfl
  | cons c l ih =>
    rw [sanitizeChars, List.map_cons, List.flatten_cons,
      replaceChar_eq_self c (h c (List.mem_cons_self c l))]
    rw [sanitizeChars] at ih
    rw [ih (fun x hx => h x (List.mem_cons_of_mem c hx))]
    rfl

/-- C5 counterexample: the uid-to-filename mapping is not injective — the
distinct uids "/" and ":" are both sanitized to "_", so two well-formed
distinct uids can collide on one filename. -/
theorem sanitizeFilename_collision :
    ("/" : String) ≠ ":" ∧ sanitizeFilename "/" = sanitizeFilename ":" := by
  constructor
  · decide
  · rfl

/-- C5 amended: on uids containing none of the replaced characters
(/ \ : * ? " < > | and @) the sanitizer is the identity, so on that set the
uid-to-filename mapping is injective; distinct uids may collide as soon as
replaced characters are involved. -/
theorem sanitizeFilename_injective_on_clean (u1 u2 : String)
    (h1 : ∀ c ∈ u1.data, c ∉ hostileChars)
    (h2 : ∀ c ∈ u2.data, c ∉ hostileChars)
    (hne : u1 ≠ u2) :
    sanitizeFilename u1 ≠ sanitizeFilename u2 := by
  have e1 : sanitizeFilename u1 = u1 := by
    rw [sanitizeFilename, sanitizeChars_id u1.data h1]
  have e2 : sanitizeFilename u2 = u2 := by
    rw [sanitizeFilename, sanitizeChars_id u2.data h2]
  rw [e1, e2]
  exact hne

theorem sanitizeFilename_injective_on_clean_witness :
    sanitizeFilename "a" ≠ sanitizeFilename "b" :=
  sanitizeFilename_injective_on_clean "a" "b" (by decide) (by decide)
    (by decide)

/-- C4: all-day detection — the value "20240315" with VALUE=DATE declared
resolves to the calendar date March 15 2024 with no time-of-day and the
all-day flag set, with no timezone conversion applied; the value
"20240315T090000" with the valid timezone identifier America/New_York
resolves to 09:00 March 15 2024 interpreted in that timezone, not all-day. -/
theorem parseEventTime_all_day_detection :
    parseEventTime (some ⟨"20240315", [("VALUE", ["DATE"])]⟩)
        = (⟨2024, 3, 15, 0, 0, 0, "UTC"⟩, true)
    ∧ loadLocation "America/New_York" = some "America/New_York"
    ∧ parseEventTime
          (some ⟨"20240315T090000", [("TZID", ["America/New_York"])]⟩)
        = (⟨2024, 3, 15, 9, 0, 0, "America/New_York"⟩, false) := by
  refine ⟨?_, ?_, ?_⟩ <;> rfl

/-- C10: fallback all-day classification — when no date-only value type is
declared, the primary date-time parse fails, and the bare-date fallback
parse succeeds, `parseEventTime` returns that date with the all-day flag
set even though VALUE=DATE was never declared. -/
theorem parseEventTime_fallback_all_day (p : PropData) (y m d : Nat)
    (hv : hasValueDate p = false)
    (hfail : propDateTime p.value (resolveLoc p) = none)
    (hfb : parseDate8 p.value = some (y, m, d)) :
    parseEventTime (some p) = (⟨y, m, d, 0, 0, 0, "UTC"⟩, true) := by
  rw [parseEventTime, if_neg (by rw [hv]; exact Bool.false_ne_true), hfail,
    goParseDate, hfb]

theorem parseEventTime_fallback_all_day_witness :
    hasValueDate ⟨"20240315", []⟩ = false
    ∧ propDateTime "20240315" (resolveLoc ⟨"20240315", []⟩) = none
    ∧ parseEventTime (some ⟨"20240315", []⟩)
        = (⟨2024, 3, 15, 0, 0, 0, "UTC"⟩, true) :=
  ⟨rfl, rfl,
    parseEventTime_fallback_all_day ⟨"20240315", []⟩ 2024 3 15 rfl rfl
      (by decide)⟩

end Calendar
